import Mathlib

/-!
Verification of the `pywhy_graphs` ADMG module (`src/pywhy_graphs/admg.py`)
against its specification.

Shallow embedding conventions:
* Node identifiers are natural numbers (opaque hashable identifiers in Python).
* A networkx graph (`nx.DiGraph` or `nx.Graph`) is embedded as an `NxGraph`:
  a finite node set together with a finite edge relation.  For an undirected
  `nx.Graph` the edge relation is the symmetric adjacency relation
  (`has_edge(u, v)` iff `has_edge(v, u)`); self-loops are representable since
  networkx graphs accept them.
* Fallible Python code is embedded in `Except AdmgError`.
* `MixedEdgeGraph` is imported by the source from the external `graphs`
  module, which is not part of `src/`; its registry operations are modelled
  from the spec (each such definition carries a `Modelled from the spec:`
  doc comment).
-/

instance instDecEqExcept {e a : Type} [DecidableEq e] [DecidableEq a] :
    DecidableEq (Except e a) := fun x y =>
  match x, y with
  | .ok v, .ok w =>
      if h : v = w then isTrue (by rw [h])
      else isFalse (fun hc => h (Except.ok.inj hc))
  | .error v, .error w =>
      if h : v = w then isTrue (by rw [h])
      else isFalse (fun hc => h (Except.error.inj hc))
  | .ok _, .error _ => isFalse (fun hc => Except.noConfusion hc)
  | .error _, .ok _ => isFalse (fun hc => Except.noConfusion hc)

/-- Embedding of a networkx graph: a finite set of nodes and a finite edge
relation over them.  For `nx.DiGraph` the edges are the directed edges as
given; for `nx.Graph` the edge relation is symmetrized at construction. -/
structure NxGraph where
  nodes : Finset ℕ
  edges : Finset (ℕ × ℕ)
deriving DecidableEq

/-- Endpoints appearing in an edge list; networkx adds both endpoints of every
edge to the node set. -/
def nodesOfEdges (l : List (ℕ × ℕ)) : Finset ℕ :=
  (l.map Prod.fst ++ l.map Prod.snd).toFinset

/-- Embedding of `nx.DiGraph(edge_list)`: nodes are the endpoints, edges are
kept as given (directed). -/
def nxDiGraphOfEdges (l : List (ℕ × ℕ)) : NxGraph :=
  ⟨nodesOfEdges l, l.toFinset⟩

/-- Embedding of `nx.Graph(edge_list)`: nodes are the endpoints, and the
adjacency relation is symmetric (each input edge is stored both ways).
Self-loops in the input are kept, as networkx does. -/
def nxGraphOfEdges (l : List (ℕ × ℕ)) : NxGraph :=
  ⟨nodesOfEdges l, (l ++ l.map Prod.swap).toFinset⟩

/-- Embedding of `nx.DiGraph(incoming)` for an optional edge-list input;
`None` yields the empty graph. -/
def nxDiGraphOfOpt : Option (List (ℕ × ℕ)) → NxGraph
  | none => nxDiGraphOfEdges []
  | some l => nxDiGraphOfEdges l

/-- Embedding of `nx.Graph(incoming)` for an optional edge-list input;
`None` yields the empty graph. -/
def nxGraphOfOpt : Option (List (ℕ × ℕ)) → NxGraph
  | none => nxGraphOfEdges []
  | some l => nxGraphOfEdges l

/-- Edge relation of an edge set. -/
def edgeRel (E : Finset (ℕ × ℕ)) (a b : ℕ) : Prop := (a, b) ∈ E

instance (E : Finset (ℕ × ℕ)) (a b : ℕ) : Decidable (edgeRel E a b) := by
  unfold edgeRel; infer_instance

/-- One breadth-first expansion step: all targets of edges whose source is
already in `s`. -/
def stepSet (E : Finset (ℕ × ℕ)) (s : Finset ℕ) : Finset ℕ :=
  (E.filter (fun e => e.1 ∈ s)).image Prod.snd

/-- One closure step: keep `s` and add its successors. -/
def reachStep (E : Finset (ℕ × ℕ)) (s : Finset ℕ) : Finset ℕ :=
  s ∪ stepSet E s

/-- Saturated forward closure of `s` under the edges `E`, computed by
iterating `reachStep` enough times to reach the fixpoint. -/
def reachFrom (E : Finset (ℕ × ℕ)) (s : Finset ℕ) : Finset ℕ :=
  (reachStep E)^[(s ∪ E.image Prod.snd).card] s

theorem mem_stepSet {E : Finset (ℕ × ℕ)} {s : Finset ℕ} {v : ℕ} :
    v ∈ stepSet E s ↔ ∃ w ∈ s, (w, v) ∈ E := by
  unfold stepSet
  simp only [Finset.mem_image, Finset.mem_filter, Prod.exists]
  constructor
  · rintro ⟨a, b, ⟨hab, ha⟩, rfl⟩
    exact ⟨a, ha, hab⟩
  · rintro ⟨w, hw, hwv⟩
    exact ⟨w, v, ⟨hwv, hw⟩, rfl⟩

theorem stepSet_mono {E : Finset (ℕ × ℕ)} {s t : Finset ℕ} (h : s ⊆ t) :
    stepSet E s ⊆ stepSet E t := by
  intro v hv
  rcases mem_stepSet.mp hv with ⟨w, hw, hwv⟩
  exact mem_stepSet.mpr ⟨w, h hw, hwv⟩

theorem subset_reachStep (E : Finset (ℕ × ℕ)) (s : Finset ℕ) :
    s ⊆ reachStep E s := Finset.subset_union_left

theorem reachStep_mono {E : Finset (ℕ × ℕ)} {s t : Finset ℕ} (h : s ⊆ t) :
    reachStep E s ⊆ reachStep E t :=
  Finset.union_subset_union h (stepSet_mono h)

theorem iterate_subset_iterate_succ (E : Finset (ℕ × ℕ)) (s : Finset ℕ) (k : ℕ) :
    (reachStep E)^[k] s ⊆ (reachStep E)^[k + 1] s := by
  rw [Function.iterate_succ_apply']
  exact subset_reachStep E _

theorem subset_iterate (E : Finset (ℕ × ℕ)) (s : Finset ℕ) (k : ℕ) :
    s ⊆ (reachStep E)^[k] s := by
  induction k with
  | zero => simp
  | succ k ih => exact ih.trans (iterate_subset_iterate_succ E s k)

theorem iterate_subset_univ (E : Finset (ℕ × ℕ)) (s : Finset ℕ) (k : ℕ) :
    (reachStep E)^[k] s ⊆ s ∪ E.image Prod.snd := by
  induction k with
  | zero => simp
  | succ k ih =>
      rw [Function.iterate_succ_apply']
      apply Finset.union_subset ih
      intro v hv
      rcases mem_stepSet.mp hv with ⟨w, _, hwv⟩
      exact Finset.mem_union_right _ (Finset.mem_image.mpr ⟨(w, v), hwv, rfl⟩)

theorem iterate_card_ge (E : Finset (ℕ × ℕ)) (s : Finset ℕ) (k : ℕ)
    (h : ∀ j < k, reachStep E ((reachStep E)^[j] s) ≠ (reachStep E)^[j] s) :
    k ≤ ((reachStep E)^[k] s).card := by
  induction k with
  | zero => exact Nat.zero_le _
  | succ k ih =>
      have hk : k ≤ ((reachStep E)^[k] s).card :=
        ih (fun j hj => h j (Nat.lt_succ_of_lt hj))
      have hne : reachStep E ((reachStep E)^[k] s) ≠ (reachStep E)^[k] s :=
        h k (Nat.lt_succ_self k)
      have hss : (reachStep E)^[k] s ⊂ (reachStep E)^[k + 1] s := by
        rw [Function.iterate_succ_apply']
        exact Finset.ssubset_iff_subset_ne.mpr ⟨subset_reachStep E _, Ne.symm hne⟩
      exact Nat.succ_le_of_lt (Nat.lt_of_le_of_lt hk (Finset.card_lt_card hss))

theorem exists_fixpoint (E : Finset (ℕ × ℕ)) (s : Finset ℕ) :
    ∃ k ≤ (s ∪ E.image Prod.snd).card,
      reachStep E ((reachStep E)^[k] s) = (reachStep E)^[k] s := by
  set N := (s ∪ E.image Prod.snd).card with hN
  by_contra hc
  push_neg at hc
  have hgrow : N + 1 ≤ ((reachStep E)^[N + 1] s).card := by
    apply iterate_card_ge
    intro j hj
    exact hc j (Nat.le_of_lt_succ hj)
  have hb : ((reachStep E)^[N + 1] s).card ≤ N := by
    rw [hN]
    exact Finset.card_le_card (iterate_subset_univ E s (N + 1))
  omega

theorem iterate_fixed {E : Finset (ℕ × ℕ)} {t : Finset ℕ}
    (h : reachStep E t = t) (m : ℕ) : (reachStep E)^[m] t = t := by
  induction m with
  | zero => rfl
  | succ m ih => rw [Function.iterate_succ_apply', ih, h]

theorem reachFrom_closed (E : Finset (ℕ × ℕ)) (s : Finset ℕ) :
    reachStep E (reachFrom E s) = reachFrom E s := by
  rcases exists_fixpoint E s with ⟨k, hk, hfix⟩
  set N := (s ∪ E.image Prod.snd).card with hN
  have hsplit : (reachStep E)^[N] s = (reachStep E)^[k] s := by
    have : N = (N - k) + k := by omega
    rw [this, Function.iterate_add_apply, iterate_fixed hfix]
  unfold reachFrom
  rw [← hN, hsplit, hfix]

theorem subset_reachFrom (E : Finset (ℕ × ℕ)) (s : Finset ℕ) :
    s ⊆ reachFrom E s := subset_iterate E s _

theorem stepSet_reachFrom_subset (E : Finset (ℕ × ℕ)) (s : Finset ℕ) :
    stepSet E (reachFrom E s) ⊆ reachFrom E s := by
  conv_rhs => rw [← reachFrom_closed E s]
  exact Finset.subset_union_right

theorem reachFrom_sound {E : Finset (ℕ × ℕ)} {s : Finset ℕ} {v : ℕ}
    (h : v ∈ reachFrom E s) : ∃ x ∈ s, Relation.ReflTransGen (edgeRel E) x v := by
  unfold reachFrom at h
  revert h
  generalize (s ∪ E.image Prod.snd).card = k
  induction k generalizing v with
  | zero => exact fun h => ⟨v, h, Relation.ReflTransGen.refl⟩
  | succ k ih =>
      rw [Function.iterate_succ_apply']
      intro h
      rcases Finset.mem_union.mp h with h1 | h2
      · exact ih h1
      · rcases mem_stepSet.mp h2 with ⟨w, hw, hwv⟩
        rcases ih hw with ⟨x, hx, hxw⟩
        exact ⟨x, hx, hxw.tail hwv⟩

theorem reachFrom_complete {E : Finset (ℕ × ℕ)} {s : Finset ℕ} {x v : ℕ}
    (hx : x ∈ s) (h : Relation.ReflTransGen (edgeRel E) x v) :
    v ∈ reachFrom E s := by
  induction h with
  | refl => exact subset_reachFrom E s hx
  | tail _ hbc ih =>
      exact stepSet_reachFrom_subset E s (mem_stepSet.mpr ⟨_, ih, hbc⟩)

/-- Set of strict descendants of `u`: all nodes reachable from `u` by a
directed path of length at least one. -/
def NxGraph.descSet (g : NxGraph) (u : ℕ) : Finset ℕ :=
  reachFrom g.edges (stepSet g.edges {u})

theorem mem_descSet_iff {g : NxGraph} {u v : ℕ} :
    v ∈ g.descSet u ↔ Relation.TransGen (edgeRel g.edges) u v := by
  constructor
  · intro h
    rcases reachFrom_sound h with ⟨x, hx, hxv⟩
    rcases mem_stepSet.mp hx with ⟨w, hw, hwx⟩
    rcases Finset.mem_singleton.mp hw with rfl
    exact (Relation.TransGen.head'_iff).mpr ⟨x, hwx, hxv⟩
  · intro h
    rcases (Relation.TransGen.head'_iff).mp h with ⟨x, hux, hxv⟩
    exact reachFrom_complete (mem_stepSet.mpr ⟨u, Finset.mem_singleton_self u, hux⟩) hxv

/-- Well-formedness of an embedded networkx graph: every edge source is a
node.  Every graph produced by the networkx constructors satisfies this. -/
def NxGraph.srcWf (g : NxGraph) : Prop := ∀ e ∈ g.edges, e.1 ∈ g.nodes

theorem nxDiGraphOfEdges_srcWf (l : List (ℕ × ℕ)) : (nxDiGraphOfEdges l).srcWf := by
  intro e he
  unfold nxDiGraphOfEdges at he ⊢
  simp only [List.mem_toFinset] at he
  unfold nodesOfEdges
  simp only [List.mem_toFinset, List.mem_append, List.mem_map]
  exact Or.inl ⟨e, he, rfl⟩

theorem nxDiGraphOfOpt_srcWf (d : Option (List (ℕ × ℕ))) : (nxDiGraphOfOpt d).srcWf := by
  cases d with
  | none => exact nxDiGraphOfEdges_srcWf []
  | some l => exact nxDiGraphOfEdges_srcWf l

/-- Embedding of `nx.is_directed_acyclic_graph`: `true` iff the directed graph
has no directed cycle.  The check is the executable one — no node lies in its
own strict-descendant set. -/
def is_directed_acyclic_graph (g : NxGraph) : Bool :=
  decide (∀ u ∈ g.nodes, u ∉ g.descSet u)

/-- Existence of a directed cycle: some node has a directed path of length at
least one back to itself. -/
def hasDirectedCycle (g : NxGraph) : Prop :=
  ∃ u, Relation.TransGen (edgeRel g.edges) u u

theorem is_directed_acyclic_graph_iff {g : NxGraph} (hwf : g.srcWf) :
    is_directed_acyclic_graph g = true ↔ ¬ hasDirectedCycle g := by
  unfold is_directed_acyclic_graph hasDirectedCycle
  rw [decide_eq_true_eq]
  constructor
  · rintro h ⟨u, hu⟩
    have hmem : u ∈ g.descSet u := mem_descSet_iff.mpr hu
    have hnode : u ∈ g.nodes := by
      rcases (Relation.TransGen.head'_iff).mp hu with ⟨x, hux, _⟩
      exact hwf (u, x) hux
    exact h u hnode hmem
  · intro h u _ hmem
    exact h ⟨u, mem_descSet_iff.mp hmem⟩

/-- Strict ancestors of `source`: nodes with a directed path (length ≥ 1) to
`source`.  This is the semantics of `nx.ancestors` on an actual graph. -/
def NxGraph.ancestorSet (g : NxGraph) (source : ℕ) : Finset ℕ :=
  NxGraph.descSet ⟨g.nodes, g.edges.image Prod.swap⟩ source

/-- Successor list of a node, the semantics of `G.successors(n)` on an actual
`nx.DiGraph` (iteration order is unspecified; we use ascending order). -/
def NxGraph.successorsList (g : NxGraph) (n : ℕ) : List ℕ :=
  ((g.edges.filter (fun e => e.1 = n)).image Prod.snd).sort (· ≤ ·)

/-- Predecessor list of a node, the semantics of `G.predecessors(n)`. -/
def NxGraph.predecessorsList (g : NxGraph) (n : ℕ) : List ℕ :=
  ((g.edges.filter (fun e => e.2 = n)).image Prod.fst).sort (· ≤ ·)

/-- Connected component of `u` in an (already symmetric) graph: `u` together
with everything reachable from it. -/
def NxGraph.componentOf (g : NxGraph) (u : ℕ) : Finset ℕ :=
  reachFrom g.edges {u}

/-- Connected components of a graph, the semantics of
`nx.connected_components` on an actual `nx.Graph`: one set per component,
each listed once (order unspecified; we enumerate nodes in ascending order). -/
def NxGraph.connectedComponentsList (g : NxGraph) : List (Finset ℕ) :=
  ((g.nodes.sort (· ≤ ·)).map g.componentOf).dedup

/-- Faults raised by the module: registry faults (modelled from the spec's
error taxonomy), the `RuntimeError` raised by `ADMG.__init__` when the
directed sub-graph is not a DAG (the spec's `NotADAGError`), the networkx
node-not-found fault (the spec's `NodeNotFoundError`), and the Python
`AttributeError`/`TypeError` raised when a networkx operation is applied to a
bound-method object instead of a graph. -/
inductive AdmgError where
  | duplicateEdgeType
  | unknownEdgeType
  | notADAG
  | nodeNotFound
  | attributeError
deriving DecidableEq

/-- Lookup by name in an association list of named sub-graphs. -/
def lookupS : List (String × NxGraph) → String → Option NxGraph
  | [], _ => none
  | p :: ps, name => if p.1 = name then some p.2 else lookupS ps name

/-- Modelled from the spec: `MixedEdgeGraph` (imported by the source from the
external `graphs` module, not under `src/`) owns "a mapping from edge-type
name (string) to a single-edge-type graph instance", with unique names. -/
structure MixedEdgeGraph where
  registry : List (String × NxGraph)
deriving DecidableEq

/-- Modelled from the spec: "Register edge type (sub_graph, name): adds
sub_graph under name to the registry.  Fails with DuplicateEdgeTypeError if
name already registered." -/
def MixedEdgeGraph.add_edge_type (g : MixedEdgeGraph) (sub : NxGraph)
    (name : String) : Except AdmgError MixedEdgeGraph :=
  if (lookupS g.registry name).isSome then .error .duplicateEdgeType
  else .ok ⟨g.registry ++ [(name, sub)]⟩

/-- Modelled from the spec: "Get sub-graph (name) → the registered
single-edge-type graph, or fails with UnknownEdgeTypeError".  This models the
source's `_get_internal_graph`. -/
def MixedEdgeGraph.get_internal_graph (g : MixedEdgeGraph) (name : String) :
    Except AdmgError NxGraph :=
  match lookupS g.registry name with
  | some sub => .ok sub
  | none => .error .unknownEdgeType

/-- Modelled from the spec: `get_graphs(name)` returns the registered
sub-graph for `name`, or fails with UnknownEdgeTypeError. -/
def MixedEdgeGraph.get_graphs (g : MixedEdgeGraph) (name : String) :
    Except AdmgError NxGraph :=
  g.get_internal_graph name

/-- Modelled from the spec: the unified node view is "the set of nodes that
appear in at least one sub-graph (union semantics)". -/
def MixedEdgeGraph.nodeView (g : MixedEdgeGraph) : Finset ℕ :=
  g.registry.foldr (fun p acc => p.2.nodes ∪ acc) ∅

/-- Embedding of the `ADMG` class: the inherited `MixedEdgeGraph` state plus
the three role names stored by `__init__` (`self._directed_name`,
`self._bidirected_name`, `self._undirected_name`). -/
structure ADMG where
  graph : MixedEdgeGraph
  directedName : String
  bidirectedName : String
  undirectedName : String
deriving DecidableEq

/-- Embedding of `ADMG.sub_directed_graph`:
`self._get_internal_graph(self._directed_name)`. -/
def ADMG.sub_directed_graph (a : ADMG) : Except AdmgError NxGraph :=
  a.graph.get_internal_graph a.directedName

/-- Embedding of `ADMG.sub_bidirected_graph`. -/
def ADMG.sub_bidirected_graph (a : ADMG) : Except AdmgError NxGraph :=
  a.graph.get_internal_graph a.bidirectedName

/-- Embedding of `ADMG.sub_undirected_graph`. -/
def ADMG.sub_undirected_graph (a : ADMG) : Except AdmgError NxGraph :=
  a.graph.get_internal_graph a.undirectedName

/-- Embedding of `ADMG.__init__` for edge-list (or `None`) inputs: build the
three sub-graphs with the networkx constructors, register them under the
given role names, store the names, then raise the not-a-DAG `RuntimeError`
unless `nx.is_directed_acyclic_graph(self.sub_directed_graph())` holds. -/
def ADMG.init (incomingDirected incomingBidirected incomingUndirected :
    Option (List (ℕ × ℕ)))
    (directedEdgeName bidirectedEdgeName undirectedEdgeName : String) :
    Except AdmgError ADMG := do
  let g0 : MixedEdgeGraph := ⟨[]⟩
  let g1 ← g0.add_edge_type (nxDiGraphOfOpt incomingDirected) directedEdgeName
  let g2 ← g1.add_edge_type (nxGraphOfOpt incomingBidirected) bidirectedEdgeName
  let g3 ← g2.add_edge_type (nxGraphOfOpt incomingUndirected) undirectedEdgeName
  let a : ADMG := ⟨g3, directedEdgeName, bidirectedEdgeName, undirectedEdgeName⟩
  let gd ← a.sub_directed_graph
  if is_directed_acyclic_graph gd then .ok a else .error .notADAG

/-- Default role name used by `ADMG.__init__`. -/
def defaultDirectedName : String := "directed"

/-- Default role name used by `ADMG.__init__`. -/
def defaultBidirectedName : String := "bidirected"

/-- Default role name used by `ADMG.__init__`. -/
def defaultUndirectedName : String := "undirected"

/-- Python value handed to a networkx function where a graph is expected:
either an actual graph object, or a bound-method object — the value of the
attribute access `self.sub_directed_graph` WITHOUT call parentheses, which is
what `AncestralMixin` and `ADMG.c_components` actually pass. -/
inductive PyGraphObj where
  | graphObj (g : NxGraph)
  | boundMethod (f : Unit → Except AdmgError NxGraph)

/-- Embedding of `nx.ancestors(G, source)`: on a real graph it returns the
strict ancestor set, raising the node-not-found fault if `source` is absent;
on a bound-method object the first graph operation fails with
`AttributeError` (a method object has none of the graph attributes). -/
def nx_ancestors (G : PyGraphObj) (source : ℕ) : Except AdmgError (Finset ℕ) :=
  match G with
  | .boundMethod _ => .error .attributeError
  | .graphObj g =>
      if source ∈ g.nodes then .ok (g.ancestorSet source)
      else .error .nodeNotFound

/-- Embedding of `nx.descendants(G, source)`; error behavior as in
`nx_ancestors`. -/
def nx_descendants (G : PyGraphObj) (source : ℕ) : Except AdmgError (Finset ℕ) :=
  match G with
  | .boundMethod _ => .error .attributeError
  | .graphObj g =>
      if source ∈ g.nodes then .ok (g.descSet source)
      else .error .nodeNotFound

/-- Embedding of the attribute call `obj.successors(n)`: a bound-method
object has no `successors` attribute, so Python raises `AttributeError`; a
real `nx.DiGraph` returns the successor iterator, raising the node-not-found
fault if `n` is absent. -/
def PyGraphObj.successorsAttr (G : PyGraphObj) (n : ℕ) :
    Except AdmgError (List ℕ) :=
  match G with
  | .boundMethod _ => .error .attributeError
  | .graphObj g =>
      if n ∈ g.nodes then .ok (g.successorsList n) else .error .nodeNotFound

/-- Embedding of the attribute call `obj.predecessors(n)`; error behavior as
in `successorsAttr`. -/
def PyGraphObj.predecessorsAttr (G : PyGraphObj) (n : ℕ) :
    Except AdmgError (List ℕ) :=
  match G with
  | .boundMethod _ => .error .attributeError
  | .graphObj g =>
      if n ∈ g.nodes then .ok (g.predecessorsList n) else .error .nodeNotFound

/-- Embedding of `nx.connected_components(G)`: on a real graph, the list of
components; on a bound-method object, the decorator/permission checks touch
graph attributes and Python raises `AttributeError`. -/
def nx_connected_components (G : PyGraphObj) :
    Except AdmgError (List (Finset ℕ)) :=
  match G with
  | .boundMethod _ => .error .attributeError
  | .graphObj g => .ok g.connectedComponentsList

/-- Embedding of `AncestralMixin.ancestors`:
`nx.ancestors(self.sub_directed_graph, source)` — note the source passes the
attribute `self.sub_directed_graph` itself (a bound method), not the result
of calling it. -/
def ADMG.ancestors (a : ADMG) (source : ℕ) : Except AdmgError (Finset ℕ) :=
  nx_ancestors (.boundMethod (fun _ => a.sub_directed_graph)) source

/-- Embedding of `AncestralMixin.descendants`:
`nx.descendants(self.sub_directed_graph, source)` — same uncalled attribute. -/
def ADMG.descendants (a : ADMG) (source : ℕ) : Except AdmgError (Finset ℕ) :=
  nx_descendants (.boundMethod (fun _ => a.sub_directed_graph)) source

/-- Embedding of `AncestralMixin.children`:
`self.sub_directed_graph.successors(n)` — `successors` is looked up on the
bound-method object `self.sub_directed_graph`. -/
def ADMG.children (a : ADMG) (n : ℕ) : Except AdmgError (List ℕ) :=
  PyGraphObj.successorsAttr (.boundMethod (fun _ => a.sub_directed_graph)) n

/-- Embedding of `AncestralMixin.parents`:
`self.sub_directed_graph.predecessors(n)`. -/
def ADMG.parents (a : ADMG) (n : ℕ) : Except AdmgError (List ℕ) :=
  PyGraphObj.predecessorsAttr (.boundMethod (fun _ => a.sub_directed_graph)) n

/-- Embedding of `ADMG.c_components`:
`nx.connected_components(self.sub_bidirected_graph)` — again the uncalled
attribute is passed. -/
def ADMG.c_components (a : ADMG) : Except AdmgError (List (Finset ℕ)) :=
  nx_connected_components (.boundMethod (fun _ => a.sub_bidirected_graph))

/-- Embedding of `ADMG.directed_edges`:
`self.get_graphs(self._directed_name).edges`. -/
def ADMG.directed_edges (a : ADMG) : Except AdmgError (Finset (ℕ × ℕ)) :=
  (a.graph.get_graphs a.directedName).map NxGraph.edges

/-- Embedding of `ADMG.bidirected_edges`. -/
def ADMG.bidirected_edges (a : ADMG) : Except AdmgError (Finset (ℕ × ℕ)) :=
  (a.graph.get_graphs a.bidirectedName).map NxGraph.edges

/-- Embedding of `ADMG.undirected_edges`. -/
def ADMG.undirected_edges (a : ADMG) : Except AdmgError (Finset (ℕ × ℕ)) :=
  (a.graph.get_graphs a.undirectedName).map NxGraph.edges

theorem mem_nxGraphOfEdges_edges (l : List (ℕ × ℕ)) (x y : ℕ) :
    (x, y) ∈ (nxGraphOfEdges l).edges ↔ ((x, y) ∈ l ∨ (y, x) ∈ l) := by
  unfold nxGraphOfEdges
  simp only [List.mem_toFinset, List.mem_append, List.mem_map]
  apply or_congr Iff.rfl
  constructor
  · rintro ⟨⟨a1, a2⟩, ha, heq⟩
    simp only [Prod.swap_prod_mk, Prod.mk.injEq] at heq
    rcases heq with ⟨rfl, rfl⟩
    exact ha
  · intro h
    exact ⟨(y, x), h, rfl⟩

theorem nxGraphOfEdges_symm (l : List (ℕ × ℕ)) (x y : ℕ) :
    (x, y) ∈ (nxGraphOfEdges l).edges ↔ (y, x) ∈ (nxGraphOfEdges l).edges := by
  rw [mem_nxGraphOfEdges_edges, mem_nxGraphOfEdges_edges]
  tauto

theorem nxGraphOfOpt_symm (o : Option (List (ℕ × ℕ))) (x y : ℕ) :
    (x, y) ∈ (nxGraphOfOpt o).edges ↔ (y, x) ∈ (nxGraphOfOpt o).edges := by
  cases o with
  | none => exact nxGraphOfEdges_symm [] x y
  | some l => exact nxGraphOfEdges_symm l x y

/-- Characterization of `ADMG.__init__` for pairwise-distinct role names:
registration always succeeds, the registry holds exactly the three freshly
built sub-graphs in role order, and construction succeeds iff the directed
sub-graph passes the acyclicity check, raising the not-a-DAG fault
otherwise. -/
theorem ADMG.init_eq_of_distinct (d b u : Option (List (ℕ × ℕ)))
    (dn bn un : String) (h1 : dn ≠ bn) (h2 : dn ≠ un) (h3 : bn ≠ un) :
    ADMG.init d b u dn bn un =
      if is_directed_acyclic_graph (nxDiGraphOfOpt d) = true then
        Except.ok ⟨⟨[(dn, nxDiGraphOfOpt d), (bn, nxGraphOfOpt b),
          (un, nxGraphOfOpt u)]⟩, dn, bn, un⟩
      else Except.error AdmgError.notADAG := by
  simp [ADMG.init, MixedEdgeGraph.add_edge_type, lookupS, h1, h2, h3,
    ADMG.sub_directed_graph, MixedEdgeGraph.get_internal_graph,
    Bind.bind, Except.bind]

/-- Inversion of a successful `ADMG.__init__`: the three role names are
pairwise distinct, the resulting object holds exactly the three freshly built
sub-graphs registered in role order, and the acyclicity check passed. -/
theorem ADMG.init_ok_inversion (d b u : Option (List (ℕ × ℕ)))
    (dn bn un : String) (a : ADMG)
    (h : ADMG.init d b u dn bn un = Except.ok a) :
    dn ≠ bn ∧ dn ≠ un ∧ bn ≠ un ∧
    a = ⟨⟨[(dn, nxDiGraphOfOpt d), (bn, nxGraphOfOpt b),
      (un, nxGraphOfOpt u)]⟩, dn, bn, un⟩ ∧
    is_directed_acyclic_graph (nxDiGraphOfOpt d) = true := by
  by_cases h1 : dn = bn
  · subst h1
    simp [ADMG.init, MixedEdgeGraph.add_edge_type, lookupS,
      Bind.bind, Except.bind] at h
  by_cases h2 : dn = un
  · subst h2
    simp [ADMG.init, MixedEdgeGraph.add_edge_type, lookupS, h1,
      Bind.bind, Except.bind] at h
  by_cases h3 : bn = un
  · subst h3
    simp [ADMG.init, MixedEdgeGraph.add_edge_type, lookupS, h1, h2,
      Bind.bind, Except.bind] at h
  rw [ADMG.init_eq_of_distinct d b u dn bn un h1 h2 h3] at h
  by_cases hdag : is_directed_acyclic_graph (nxDiGraphOfOpt d) = true
  · rw [if_pos hdag] at h
    exact ⟨h1, h2, h3, (Except.ok.inj h).symm, hdag⟩
  · rw [if_neg hdag] at h
    exact absurd h (by simp)

/-- Heap of Python graph objects, used to model aliasing: each live graph
object is a numbered cell holding its current `NxGraph` value. -/
structure Heap where
  store : List (ℕ × NxGraph)
  next : ℕ
deriving DecidableEq

/-- Lookup of a heap cell by object identity. -/
def lookupN : List (ℕ × NxGraph) → ℕ → Option NxGraph
  | [], _ => none
  | p :: ps, r => if p.1 = r then some p.2 else lookupN ps r

/-- Dereference a graph object. -/
def Heap.get (h : Heap) (r : ℕ) : Option NxGraph := lookupN h.store r

/-- In-place mutation of the graph object `r` (for example, the caller adding
edges to its own graph after constructing an ADMG from it). -/
def Heap.set (h : Heap) (r : ℕ) (g : NxGraph) : Heap :=
  ⟨h.store.map (fun p => if p.1 = r then (r, g) else p), h.next⟩

/-- Allocation of a fresh graph object, as a networkx constructor does. -/
def Heap.alloc (h : Heap) (g : NxGraph) : Heap × ℕ :=
  (⟨h.store ++ [(h.next, g)], h.next + 1⟩, h.next)

/-- Heap well-formedness: every live object identity is below the allocation
counter. -/
def Heap.Wf (h : Heap) : Prop := ∀ p ∈ h.store, p.1 < h.next

instance (h : Heap) : Decidable h.Wf := by
  unfold Heap.Wf; infer_instance

theorem lookupN_map_set_ne (l : List (ℕ × NxGraph)) (r r' : ℕ) (g : NxGraph)
    (hne : r' ≠ r) :
    lookupN (l.map (fun p => if p.1 = r then (r, g) else p)) r' = lookupN l r' := by
  induction l with
  | nil => rfl
  | cons p ps ih =>
      by_cases hp : p.1 = r
      · simp only [List.map_cons, if_pos hp, lookupN, if_neg (Ne.symm hne),
          if_neg (hp ▸ (fun hc => hne (hc ▸ rfl)) : ¬ p.1 = r')]
        exact ih
      · simp only [List.map_cons, if_neg hp, lookupN]
        by_cases hp' : p.1 = r'
        · rw [if_pos hp', if_pos hp']
        · rw [if_neg hp', if_neg hp']
          exact ih

theorem Heap.get_set_ne (h : Heap) (r r' : ℕ) (g : NxGraph) (hne : r' ≠ r) :
    (h.set r g).get r' = h.get r' :=
  lookupN_map_set_ne h.store r r' g hne

theorem lookupN_some_mem (l : List (ℕ × NxGraph)) (r : ℕ) (g : NxGraph)
    (h : lookupN l r = some g) : (r, g) ∈ l := by
  induction l with
  | nil => exact absurd h (by simp [lookupN])
  | cons p ps ih =>
      unfold lookupN at h
      by_cases hp : p.1 = r
      · rw [if_pos hp] at h
        have hpg : p = (r, g) := by
          have h2 : p.2 = g := Option.some.inj h
          calc p = (p.1, p.2) := rfl
            _ = (r, g) := by rw [hp, h2]
        rw [← hpg]
        exact List.mem_cons_self p ps
      · rw [if_neg hp] at h
        exact List.mem_cons_of_mem p (ih h)

theorem Heap.get_lt_next {h : Heap} (hwf : h.Wf) {r : ℕ} {g : NxGraph}
    (hg : h.get r = some g) : r < h.next :=
  hwf (r, g) (lookupN_some_mem h.store r g hg)

/-- Embedding of `nx.DiGraph(G)` for a caller-supplied directed-graph input:
networkx builds a fresh graph object from `G`'s node and edge data. -/
def nxDiGraphOfGraph (g : NxGraph) : NxGraph := ⟨g.nodes, g.edges⟩

/-- Embedding of `nx.Graph(G)` for a caller-supplied undirected-graph input:
a fresh graph object with the same nodes and (already symmetric) adjacency. -/
def nxGraphOfGraph (g : NxGraph) : NxGraph := ⟨g.nodes, g.edges⟩

/-- ADMG whose registry records, per role name, the identity of the graph
object registered for it (Python objects are heap references). -/
structure ADMGRef where
  registry : List (String × ℕ)
  directedName : String
  bidirectedName : String
  undirectedName : String
deriving DecidableEq

/-- Lookup by name in the reference registry. -/
def lookupRef : List (String × ℕ) → String → Option ℕ
  | [], _ => none
  | p :: ps, name => if p.1 = name then some p.2 else lookupRef ps name

/-- Embedding of `ADMG.__init__` for caller-supplied graph-object inputs:
each input object is read and a FRESH object with copied node/edge data is
allocated and registered (lines 115–117 call `nx.DiGraph(...)`/`nx.Graph(...)`
on the inputs), the role names are stored, and the acyclicity check runs on
the registered directed sub-graph. -/
def ADMG.initFromGraphRefs (h : Heap) (dRef bRef uRef : ℕ)
    (dn bn un : String) : Except AdmgError (Heap × ADMGRef) :=
  match h.get dRef, h.get bRef, h.get uRef with
  | some gd, some gb, some gu =>
      let p1 := h.alloc (nxDiGraphOfGraph gd)
      let p2 := p1.1.alloc (nxGraphOfGraph gb)
      let p3 := p2.1.alloc (nxGraphOfGraph gu)
      if dn = bn ∨ dn = un ∨ bn = un then Except.error .duplicateEdgeType
      else if is_directed_acyclic_graph (nxDiGraphOfGraph gd) then
        Except.ok (p3.1, ⟨[(dn, p1.2), (bn, p2.2), (un, p3.2)], dn, bn, un⟩)
      else Except.error .notADAG
  | _, _, _ => Except.error .attributeError

/-- Role sub-graph accessor for the reference-registry ADMG: resolve the role
name to the registered object and dereference it. -/
def ADMGRef.sub_graph (h : Heap) (a : ADMGRef) (name : String) :
    Except AdmgError NxGraph :=
  match lookupRef a.registry name with
  | none => Except.error .unknownEdgeType
  | some r =>
      match h.get r with
      | some g => Except.ok g
      | none => Except.error .attributeError

/-- Edge view of a role sub-graph (`get_graphs(name).edges`). -/
def ADMGRef.edgesView (h : Heap) (a : ADMGRef) (name : String) :
    Except AdmgError (Finset (ℕ × ℕ)) :=
  (a.sub_graph h name).map NxGraph.edges

/-- Unified node view: union of the node sets of all registered sub-graphs. -/
def ADMGRef.nodeView (h : Heap) (a : ADMGRef) : Finset ℕ :=
  a.registry.foldr
    (fun p acc => (match h.get p.2 with | some g => g.nodes | none => ∅) ∪ acc) ∅

theorem lookupRef_some_mem (l : List (String × ℕ)) (name : String) (ref : ℕ)
    (h : lookupRef l name = some ref) : (name, ref) ∈ l := by
  induction l with
  | nil => exact absurd h (by simp [lookupRef])
  | cons p ps ih =>
      unfold lookupRef at h
      by_cases hp : p.1 = name
      · rw [if_pos hp] at h
        have hpg : p = (name, ref) := by
          have h2 : p.2 = ref := Option.some.inj h
          calc p = (p.1, p.2) := rfl
            _ = (name, ref) := by rw [hp, h2]
        rw [← hpg]
        exact List.mem_cons_self p ps
      · rw [if_neg hp] at h
        exact List.mem_cons_of_mem p (ih h)

theorem ADMGRef.sub_graph_set_ne (h : Heap) (a : ADMGRef) (r : ℕ) (g' : NxGraph)
    (hrefs : ∀ name ref, lookupRef a.registry name = some ref → ref ≠ r)
    (name : String) :
    ADMGRef.sub_graph (h.set r g') a name = ADMGRef.sub_graph h a name := by
  unfold ADMGRef.sub_graph
  cases hl : lookupRef a.registry name with
  | none => rfl
  | some ref =>
      dsimp only
      rw [Heap.get_set_ne h r ref g' (hrefs name ref hl)]

theorem foldr_nodeView_set_ne (h : Heap) (r : ℕ) (g' : NxGraph)
    (l : List (String × ℕ)) (hl : ∀ p ∈ l, p.2 ≠ r) :
    l.foldr (fun p acc =>
      (match (h.set r g').get p.2 with | some g => g.nodes | none => ∅) ∪ acc) ∅ =
    l.foldr (fun p acc =>
      (match h.get p.2 with | some g => g.nodes | none => ∅) ∪ acc) ∅ := by
  induction l with
  | nil => rfl
  | cons p ps ih =>
      simp only [List.foldr_cons]
      rw [Heap.get_set_ne h r p.2 g' (hl p (List.mem_cons_self p ps)),
        ih (fun q hq => hl q (List.mem_cons_of_mem p hq))]

/-- C8: when an ADMG is constructed from caller-supplied graph objects, each
registered sub-graph is a fresh object built from the input's edge data, so
mutating any of the caller's input objects after construction leaves the
ADMG's role sub-graphs, edge views, and unified node view unchanged. -/
theorem admg_subgraphs_unaffected_by_caller_mutation
    (h : Heap) (hwf : h.Wf) (dRef bRef uRef : ℕ) (dn bn un : String)
    (h' : Heap) (a : ADMGRef)
    (hinit : ADMG.initFromGraphRefs h dRef bRef uRef dn bn un =
      Except.ok (h', a))
    (r : ℕ) (hr : r = dRef ∨ r = bRef ∨ r = uRef) (g' : NxGraph) :
    (∀ name, ADMGRef.sub_graph (h'.set r g') a name =
      ADMGRef.sub_graph h' a name)
    ∧ (∀ name, ADMGRef.edgesView (h'.set r g') a name =
      ADMGRef.edgesView h' a name)
    ∧ ADMGRef.nodeView (h'.set r g') a = ADMGRef.nodeView h' a := by
  unfold ADMG.initFromGraphRefs at hinit
  cases hd : h.get dRef with
  | none => rw [hd] at hinit; simp at hinit
  | some gd =>
  cases hb : h.get bRef with
  | none => rw [hd, hb] at hinit; simp at hinit
  | some gu2 =>
  cases hu : h.get uRef with
  | none => rw [hd, hb, hu] at hinit; simp at hinit
  | some gu3 =>
  rw [hd, hb, hu] at hinit
  simp only [Heap.alloc] at hinit
  split at hinit
  · simp at hinit
  split at hinit
  case isFalse => simp at hinit
  have hEq := (Except.ok.inj hinit).symm
  rw [Prod.ext_iff] at hEq
  obtain ⟨hh, haa⟩ := hEq
  subst hh
  subst haa
  have hrlt : r < h.next := by
    rcases hr with rfl | rfl | rfl
    · exact Heap.get_lt_next hwf hd
    · exact Heap.get_lt_next hwf hb
    · exact Heap.get_lt_next hwf hu
  have hrefs : ∀ name ref,
      lookupRef [(dn, h.next), (bn, h.next + 1), (un, h.next + 1 + 1)] name =
        some ref → ref ≠ r := by
    intro name ref hlk
    have hm := lookupRef_some_mem _ _ _ hlk
    simp only [List.mem_cons, List.not_mem_nil, or_false, Prod.mk.injEq] at hm
    rcases hm with ⟨_, rfl⟩ | ⟨_, rfl⟩ | ⟨_, rfl⟩ <;> omega
  refine ⟨fun name => ADMGRef.sub_graph_set_ne _ _ _ _ hrefs name,
    fun name => ?_, ?_⟩
  · unfold ADMGRef.edgesView
    rw [ADMGRef.sub_graph_set_ne _ _ _ _ hrefs name]
  · unfold ADMGRef.nodeView
    refine foldr_nodeView_set_ne _ _ _ _ ?_
    intro p hp
    simp only [List.mem_cons, List.not_mem_nil, or_false] at hp
    rcases hp with rfl | rfl | rfl <;> simp <;> omega

/-- C1: `ADMG.__init__` raises the not-a-DAG fault iff the directed-role
sub-graph built from the directed edge input contains a directed cycle;
for acyclic directed input the construction succeeds no matter what the
bidirected and undirected inputs are, and every successfully constructed
ADMG has an acyclic directed sub-graph. -/
theorem admg_init_fails_iff_directed_cycle (d b u : Option (List (ℕ × ℕ))) :
    ((∃ a, ADMG.init d b u defaultDirectedName defaultBidirectedName
        defaultUndirectedName = Except.ok a) ↔
      ¬ hasDirectedCycle (nxDiGraphOfOpt d))
    ∧ (ADMG.init d b u defaultDirectedName defaultBidirectedName
        defaultUndirectedName = Except.error AdmgError.notADAG ↔
      hasDirectedCycle (nxDiGraphOfOpt d))
    ∧ ∀ a, ADMG.init d b u defaultDirectedName defaultBidirectedName
        defaultUndirectedName = Except.ok a →
      ∃ g, a.sub_directed_graph = Except.ok g ∧ ¬ hasDirectedCycle g := by
  have h1 : defaultDirectedName ≠ defaultBidirectedName := by decide
  have h2 : defaultDirectedName ≠ defaultUndirectedName := by decide
  have h3 : defaultBidirectedName ≠ defaultUndirectedName := by decide
  have hEq := ADMG.init_eq_of_distinct d b u _ _ _ h1 h2 h3
  have hiff := is_directed_acyclic_graph_iff (nxDiGraphOfOpt_srcWf d)
  by_cases hdag : is_directed_acyclic_graph (nxDiGraphOfOpt d) = true
  · rw [hEq, if_pos hdag]
    refine ⟨⟨fun _ => hiff.mp hdag, fun _ => ⟨_, rfl⟩⟩,
      ⟨fun hc => absurd hc (by simp), fun hcyc => absurd hcyc (hiff.mp hdag)⟩,
      ?_⟩
    intro a ha
    obtain rfl := (Except.ok.inj ha)
    refine ⟨nxDiGraphOfOpt d, ?_, hiff.mp hdag⟩
    simp [ADMG.sub_directed_graph, MixedEdgeGraph.get_internal_graph, lookupS]
  · rw [hEq, if_neg hdag]
    have hcyc : hasDirectedCycle (nxDiGraphOfOpt d) := by
      by_contra hnc
      exact hdag (hiff.mpr hnc)
    refine ⟨⟨?_, fun hnc => absurd hcyc hnc⟩, ⟨fun _ => hcyc, fun _ => rfl⟩,
      fun a ha => absurd ha (by simp)⟩
    rintro ⟨a, ha⟩
    exact absurd ha (by simp)

/-- Witness for C1 at a concrete input: directed edges [(1,2)] (acyclic),
bidirected edges [(3,4)], construction succeeds and the resulting directed
sub-graph has no directed cycle. -/
theorem admg_init_fails_iff_directed_cycle_witness :
    ∃ g, (ADMG.mk ⟨[(defaultDirectedName, nxDiGraphOfEdges [(1, 2)]),
      (defaultBidirectedName, nxGraphOfEdges [(3, 4)]),
      (defaultUndirectedName, nxGraphOfEdges [])]⟩
      defaultDirectedName defaultBidirectedName
      defaultUndirectedName).sub_directed_graph = Except.ok g
      ∧ ¬ hasDirectedCycle g :=
  (admg_init_fails_iff_directed_cycle (some [(1, 2)]) (some [(3, 4)]) none).2.2
    (ADMG.mk ⟨[(defaultDirectedName, nxDiGraphOfEdges [(1, 2)]),
      (defaultBidirectedName, nxGraphOfEdges [(3, 4)]),
      (defaultUndirectedName, nxGraphOfEdges [])]⟩
      defaultDirectedName defaultBidirectedName defaultUndirectedName)
    (by decide)

/-- C2 (code evaluation at the failing input): on the ADMG built from
directed edges [(1,2)], `ancestors(2)` and `descendants(1)` do not return
ancestor/descendant sets — both raise `AttributeError`, because
`AncestralMixin` passes the bound method `self.sub_directed_graph` (the call
parentheses are missing) to `nx.ancestors`/`nx.descendants` instead of the
directed sub-graph. -/
theorem admg_ancestors_descendants_raise_attribute_error :
    (ADMG.init (some [(1, 2)]) none none defaultDirectedName
      defaultBidirectedName defaultUndirectedName).map
      (fun a => (a.ancestors 2, a.descendants 1)) =
    Except.ok (Except.error AdmgError.attributeError,
      Except.error AdmgError.attributeError) := by decide

/-- C3 (code evaluation at the failing input): on the ADMG built from
directed edges [(1,2)], `children(1)` and `parents(2)` raise
`AttributeError` (the bound-method object `self.sub_directed_graph` has no
`successors`/`predecessors` attribute), so 2 is not produced by
`children(1)` and 1 is not produced by `parents(2)`. -/
theorem admg_children_parents_raise_attribute_error :
    (ADMG.init (some [(1, 2)]) none none defaultDirectedName
      defaultBidirectedName defaultUndirectedName).map
      (fun a => (a.children 1, a.parents 2)) =
    Except.ok (Except.error AdmgError.attributeError,
      Except.error AdmgError.attributeError) := by decide

/-- C4 (code evaluation at the failing input): on the ADMG built from
bidirected edges [(1,2),(2,3),(4,5)], `c_components()` does not produce the
components pairing the set of bidirected nodes — it raises `AttributeError`,
because `ADMG.c_components` passes the bound method
`self.sub_bidirected_graph` (uncalled) to `nx.connected_components`. -/
theorem admg_c_components_raises_attribute_error :
    (ADMG.init none (some [(1, 2), (2, 3), (4, 5)]) none defaultDirectedName
      defaultBidirectedName defaultUndirectedName).map ADMG.c_components =
    Except.ok (Except.error AdmgError.attributeError) := by decide

/-- C5 (code evaluation at the failing input): on the ADMG built from
directed edges [(1,2)], querying `children(5)` for the absent node 5 raises
`AttributeError`, not the node-not-found fault the claim requires — the
attribute lookup `self.sub_directed_graph.successors` fails before any node
check can run. -/
theorem admg_children_absent_node_raises_attribute_error :
    (ADMG.init (some [(1, 2)]) none none defaultDirectedName
      defaultBidirectedName defaultUndirectedName).map
      (fun a => a.children 5) =
    Except.ok (Except.error AdmgError.attributeError) := by decide

/-- C7 (code evaluation at the failing input): on the ADMG built from
directed edges [(1,2),(2,3)], every `ancestors` call raises
`AttributeError`, so the ancestor relation the transitivity claim
quantifies over is never produced by the code. -/
theorem admg_ancestor_transitivity_unevaluable :
    (ADMG.init (some [(1, 2), (2, 3)]) none none defaultDirectedName
      defaultBidirectedName defaultUndirectedName).map
      (fun a => (a.ancestors 2, a.ancestors 3)) =
    Except.ok (Except.error AdmgError.attributeError,
      Except.error AdmgError.attributeError) := by decide

/-- ADMG value produced by `ADMG()` with all three edge inputs omitted. -/
def emptyAdmg : ADMG :=
  ⟨⟨[(defaultDirectedName, ⟨∅, ∅⟩), (defaultBidirectedName, ⟨∅, ∅⟩),
    (defaultUndirectedName, ⟨∅, ∅⟩)]⟩,
    defaultDirectedName, defaultBidirectedName, defaultUndirectedName⟩

/-- C9 (code evaluation): constructing with all three edge inputs omitted
succeeds and registers exactly the three roles 'directed', 'bidirected' and
'undirected', each an empty sub-graph, so all three edge views are empty and
the unified node view is empty; however `c_components()` on this ADMG raises
`AttributeError` (the uncalled bound method is passed to
`nx.connected_components`) instead of producing no sets. -/
theorem admg_empty_init_three_empty_roles :
    ADMG.init none none none defaultDirectedName defaultBidirectedName
      defaultUndirectedName = Except.ok emptyAdmg
    ∧ emptyAdmg.directed_edges = Except.ok ∅
    ∧ emptyAdmg.bidirected_edges = Except.ok ∅
    ∧ emptyAdmg.undirected_edges = Except.ok ∅
    ∧ emptyAdmg.graph.nodeView = ∅
    ∧ emptyAdmg.c_components = Except.error AdmgError.attributeError := by
  decide

/-- C6 counterexample: the input collection [(1,1)] is accepted for the
bidirected slot — construction succeeds — and the registered bidirected
sub-graph contains the self-loop (1,1), refuting the claim that accepted
inputs never yield a self-loop. -/
theorem admg_bidirected_self_loop_counterexample :
    ADMG.init none (some [(1, 1)]) none defaultDirectedName
      defaultBidirectedName defaultUndirectedName =
      Except.ok ⟨⟨[(defaultDirectedName, nxDiGraphOfEdges []),
        (defaultBidirectedName, nxGraphOfEdges [(1, 1)]),
        (defaultUndirectedName, nxGraphOfEdges [])]⟩,
        defaultDirectedName, defaultBidirectedName, defaultUndirectedName⟩
    ∧ (1, 1) ∈ (nxGraphOfEdges [(1, 1)]).edges := by decide

/-- C6 (amended): for every successfully constructed ADMG the bidirected and
undirected sub-graphs have symmetric edge relations ((u,v) present iff (v,u)
is); self-loops, however, are kept when the input contains them. -/
theorem admg_bidirected_undirected_symmetric
    (d b u : Option (List (ℕ × ℕ))) (dn bn un : String) (a : ADMG)
    (h : ADMG.init d b u dn bn un = Except.ok a) :
    (∀ g, a.sub_bidirected_graph = Except.ok g →
      ∀ x y, (x, y) ∈ g.edges ↔ (y, x) ∈ g.edges)
    ∧ (∀ g, a.sub_undirected_graph = Except.ok g →
      ∀ x y, (x, y) ∈ g.edges ↔ (y, x) ∈ g.edges) := by
  obtain ⟨h1, h2, h3, rfl, -⟩ := ADMG.init_ok_inversion d b u dn bn un a h
  constructor
  · intro g hg x y
    have hsub : (Except.ok (nxGraphOfOpt b) : Except AdmgError NxGraph) =
        Except.ok g := by
      rw [← hg]
      simp [ADMG.sub_bidirected_graph, MixedEdgeGraph.get_internal_graph,
        lookupS, h1]
    obtain rfl := (Except.ok.inj hsub)
    exact nxGraphOfOpt_symm b x y
  · intro g hg x y
    have hsub : (Except.ok (nxGraphOfOpt u) : Except AdmgError NxGraph) =
        Except.ok g := by
      rw [← hg]
      simp [ADMG.sub_undirected_graph, MixedEdgeGraph.get_internal_graph,
        lookupS, h2, h3]
    obtain rfl := (Except.ok.inj hsub)
    exact nxGraphOfOpt_symm u x y

/-- Witness for the amended C6 at a concrete input: bidirected input
[(1,2)]; the registered bidirected sub-graph contains (1,2) iff it contains
(2,1). -/
theorem admg_bidirected_undirected_symmetric_witness :
    (1, 2) ∈ (nxGraphOfEdges [(1, 2)]).edges ↔
      (2, 1) ∈ (nxGraphOfEdges [(1, 2)]).edges :=
  (admg_bidirected_undirected_symmetric none (some [(1, 2)]) none
    defaultDirectedName defaultBidirectedName defaultUndirectedName
    (ADMG.mk ⟨[(defaultDirectedName, nxDiGraphOfEdges []),
      (defaultBidirectedName, nxGraphOfEdges [(1, 2)]),
      (defaultUndirectedName, nxGraphOfEdges [])]⟩
      defaultDirectedName defaultBidirectedName defaultUndirectedName)
    (by decide)).1 (nxGraphOfEdges [(1, 2)]) (by decide) 1 2

/-- C10: for an ADMG constructed with pairwise-distinct custom role names,
the role accessors resolve through the names stored at construction:
`sub_directed_graph()`/`directed_edges()` return exactly the sub-graph (resp.
its edges) registered under `directed_edge_name`, and likewise for the
bidirected and undirected roles. -/
theorem admg_custom_role_names_resolve
    (d b u : Option (List (ℕ × ℕ))) (dn bn un : String)
    (h1 : dn ≠ bn) (h2 : dn ≠ un) (h3 : bn ≠ un) (a : ADMG)
    (h : ADMG.init d b u dn bn un = Except.ok a) :
    a.directedName = dn ∧ a.bidirectedName = bn ∧ a.undirectedName = un
    ∧ a.sub_directed_graph = a.graph.get_internal_graph dn
    ∧ a.sub_directed_graph = Except.ok (nxDiGraphOfOpt d)
    ∧ a.directed_edges = Except.ok (nxDiGraphOfOpt d).edges
    ∧ a.sub_bidirected_graph = Except.ok (nxGraphOfOpt b)
    ∧ a.bidirected_edges = Except.ok (nxGraphOfOpt b).edges
    ∧ a.sub_undirected_graph = Except.ok (nxGraphOfOpt u)
    ∧ a.undirected_edges = Except.ok (nxGraphOfOpt u).edges := by
  obtain ⟨-, -, -, rfl, -⟩ := ADMG.init_ok_inversion d b u dn bn un a h
  refine ⟨rfl, rfl, rfl, rfl, ?_, ?_, ?_, ?_, ?_, ?_⟩ <;>
    simp [ADMG.sub_directed_graph, ADMG.sub_bidirected_graph,
      ADMG.sub_undirected_graph, ADMG.directed_edges, ADMG.bidirected_edges,
      ADMG.undirected_edges, MixedEdgeGraph.get_graphs,
      MixedEdgeGraph.get_internal_graph, lookupS, h1, h2, h3, Except.map]

/-- Custom role name used by the C10 witness. -/
def roleNameCause : String := "cause"

/-- Custom role name used by the C10 witness. -/
def roleNameConfound : String := "confound"

/-- Custom role name used by the C10 witness. -/
def roleNameSelect : String := "select"

/-- Witness for C10 at a concrete input with custom role names. -/
theorem admg_custom_role_names_resolve_witness :
    (ADMG.mk ⟨[(roleNameCause, nxDiGraphOfEdges [(1, 2)]),
      (roleNameConfound, nxGraphOfEdges [(2, 3)]),
      (roleNameSelect, nxGraphOfEdges [(4, 5)])]⟩
      roleNameCause roleNameConfound roleNameSelect).directedName =
        roleNameCause
    ∧ (ADMG.mk ⟨[(roleNameCause, nxDiGraphOfEdges [(1, 2)]),
      (roleNameConfound, nxGraphOfEdges [(2, 3)]),
      (roleNameSelect, nxGraphOfEdges [(4, 5)])]⟩
      roleNameCause roleNameConfound roleNameSelect).bidirectedName =
        roleNameConfound
    ∧ (ADMG.mk ⟨[(roleNameCause, nxDiGraphOfEdges [(1, 2)]),
      (roleNameConfound, nxGraphOfEdges [(2, 3)]),
      (roleNameSelect, nxGraphOfEdges [(4, 5)])]⟩
      roleNameCause roleNameConfound roleNameSelect).undirectedName =
        roleNameSelect
    ∧ (ADMG.mk ⟨[(roleNameCause, nxDiGraphOfEdges [(1, 2)]),
      (roleNameConfound, nxGraphOfEdges [(2, 3)]),
      (roleNameSelect, nxGraphOfEdges [(4, 5)])]⟩
      roleNameCause roleNameConfound roleNameSelect).sub_directed_graph =
      (ADMG.mk ⟨[(roleNameCause, nxDiGraphOfEdges [(1, 2)]),
      (roleNameConfound, nxGraphOfEdges [(2, 3)]),
      (roleNameSelect, nxGraphOfEdges [(4, 5)])]⟩
      roleNameCause roleNameConfound
        roleNameSelect).graph.get_internal_graph roleNameCause
    ∧ (ADMG.mk ⟨[(roleNameCause, nxDiGraphOfEdges [(1, 2)]),
      (roleNameConfound, nxGraphOfEdges [(2, 3)]),
      (roleNameSelect, nxGraphOfEdges [(4, 5)])]⟩
      roleNameCause roleNameConfound roleNameSelect).sub_directed_graph =
        Except.ok (nxDiGraphOfOpt (some [(1, 2)]))
    ∧ (ADMG.mk ⟨[(roleNameCause, nxDiGraphOfEdges [(1, 2)]),
      (roleNameConfound, nxGraphOfEdges [(2, 3)]),
      (roleNameSelect, nxGraphOfEdges [(4, 5)])]⟩
      roleNameCause roleNameConfound roleNameSelect).directed_edges =
        Except.ok (nxDiGraphOfOpt (some [(1, 2)])).edges
    ∧ (ADMG.mk ⟨[(roleNameCause, nxDiGraphOfEdges [(1, 2)]),
      (roleNameConfound, nxGraphOfEdges [(2, 3)]),
      (roleNameSelect, nxGraphOfEdges [(4, 5)])]⟩
      roleNameCause roleNameConfound roleNameSelect).sub_bidirected_graph =
        Except.ok (nxGraphOfOpt (some [(2, 3)]))
    ∧ (ADMG.mk ⟨[(roleNameCause, nxDiGraphOfEdges [(1, 2)]),
      (roleNameConfound, nxGraphOfEdges [(2, 3)]),
      (roleNameSelect, nxGraphOfEdges [(4, 5)])]⟩
      roleNameCause roleNameConfound roleNameSelect).bidirected_edges =
        Except.ok (nxGraphOfOpt (some [(2, 3)])).edges
    ∧ (ADMG.mk ⟨[(roleNameCause, nxDiGraphOfEdges [(1, 2)]),
      (roleNameConfound, nxGraphOfEdges [(2, 3)]),
      (roleNameSelect, nxGraphOfEdges [(4, 5)])]⟩
      roleNameCause roleNameConfound roleNameSelect).sub_undirected_graph =
        Except.ok (nxGraphOfOpt (some [(4, 5)]))
    ∧ (ADMG.mk ⟨[(roleNameCause, nxDiGraphOfEdges [(1, 2)]),
      (roleNameConfound, nxGraphOfEdges [(2, 3)]),
      (roleNameSelect, nxGraphOfEdges [(4, 5)])]⟩
      roleNameCause roleNameConfound roleNameSelect).undirected_edges =
        Except.ok (nxGraphOfOpt (some [(4, 5)])).edges :=
  admg_custom_role_names_resolve (some [(1, 2)]) (some [(2, 3)])
    (some [(4, 5)]) roleNameCause roleNameConfound roleNameSelect
    (by decide) (by decide) (by decide)
    (ADMG.mk ⟨[(roleNameCause, nxDiGraphOfEdges [(1, 2)]),
      (roleNameConfound, nxGraphOfEdges [(2, 3)]),
      (roleNameSelect, nxGraphOfEdges [(4, 5)])]⟩
      roleNameCause roleNameConfound roleNameSelect)
    (by decide)

/-- Witness for C8 at a concrete input: a heap with three caller graph
objects (ids 0,1,2), construction copies them into fresh objects (ids
3,4,5); mutating the caller's directed graph (id 0) afterwards changes
none of the ADMG's views. -/
theorem admg_subgraphs_unaffected_by_caller_mutation_witness :
    ADMGRef.sub_graph
      (Heap.set ⟨[(0, (⟨{1, 2}, {(1, 2)}⟩ : NxGraph)), (1, ⟨∅, ∅⟩),
        (2, ⟨∅, ∅⟩), (3, ⟨{1, 2}, {(1, 2)}⟩), (4, ⟨∅, ∅⟩), (5, ⟨∅, ∅⟩)], 6⟩
        0 ⟨{1, 2, 7}, {(1, 2), (2, 7)}⟩)
      ⟨[(defaultDirectedName, 3), (defaultBidirectedName, 4),
        (defaultUndirectedName, 5)], defaultDirectedName,
        defaultBidirectedName, defaultUndirectedName⟩ defaultDirectedName =
    ADMGRef.sub_graph
      ⟨[(0, (⟨{1, 2}, {(1, 2)}⟩ : NxGraph)), (1, ⟨∅, ∅⟩),
        (2, ⟨∅, ∅⟩), (3, ⟨{1, 2}, {(1, 2)}⟩), (4, ⟨∅, ∅⟩), (5, ⟨∅, ∅⟩)], 6⟩
      ⟨[(defaultDirectedName, 3), (defaultBidirectedName, 4),
        (defaultUndirectedName, 5)], defaultDirectedName,
        defaultBidirectedName, defaultUndirectedName⟩ defaultDirectedName
    ∧ ADMGRef.edgesView
      (Heap.set ⟨[(0, (⟨{1, 2}, {(1, 2)}⟩ : NxGraph)), (1, ⟨∅, ∅⟩),
        (2, ⟨∅, ∅⟩), (3, ⟨{1, 2}, {(1, 2)}⟩), (4, ⟨∅, ∅⟩), (5, ⟨∅, ∅⟩)], 6⟩
        0 ⟨{1, 2, 7}, {(1, 2), (2, 7)}⟩)
      ⟨[(defaultDirectedName, 3), (defaultBidirectedName, 4),
        (defaultUndirectedName, 5)], defaultDirectedName,
        defaultBidirectedName, defaultUndirectedName⟩ defaultDirectedName =
    ADMGRef.edgesView
      ⟨[(0, (⟨{1, 2}, {(1, 2)}⟩ : NxGraph)), (1, ⟨∅, ∅⟩),
        (2, ⟨∅, ∅⟩), (3, ⟨{1, 2}, {(1, 2)}⟩), (4, ⟨∅, ∅⟩), (5, ⟨∅, ∅⟩)], 6⟩
      ⟨[(defaultDirectedName, 3), (defaultBidirectedName, 4),
        (defaultUndirectedName, 5)], defaultDirectedName,
        defaultBidirectedName, defaultUndirectedName⟩ defaultDirectedName
    ∧ ADMGRef.nodeView
      (Heap.set ⟨[(0, (⟨{1, 2}, {(1, 2)}⟩ : NxGraph)), (1, ⟨∅, ∅⟩),
        (2, ⟨∅, ∅⟩), (3, ⟨{1, 2}, {(1, 2)}⟩), (4, ⟨∅, ∅⟩), (5, ⟨∅, ∅⟩)], 6⟩
        0 ⟨{1, 2, 7}, {(1, 2), (2, 7)}⟩)
      ⟨[(defaultDirectedName, 3), (defaultBidirectedName, 4),
        (defaultUndirectedName, 5)], defaultDirectedName,
        defaultBidirectedName, defaultUndirectedName⟩ =
    ADMGRef.nodeView
      ⟨[(0, (⟨{1, 2}, {(1, 2)}⟩ : NxGraph)), (1, ⟨∅, ∅⟩),
        (2, ⟨∅, ∅⟩), (3, ⟨{1, 2}, {(1, 2)}⟩), (4, ⟨∅, ∅⟩), (5, ⟨∅, ∅⟩)], 6⟩
      ⟨[(defaultDirectedName, 3), (defaultBidirectedName, 4),
        (defaultUndirectedName, 5)], defaultDirectedName,
        defaultBidirectedName, defaultUndirectedName⟩ :=
  (fun H => ⟨H.1 defaultDirectedName, H.2.1 defaultDirectedName, H.2.2⟩)
    (admg_subgraphs_unaffected_by_caller_mutation
      ⟨[(0, (⟨{1, 2}, {(1, 2)}⟩ : NxGraph)), (1, ⟨∅, ∅⟩), (2, ⟨∅, ∅⟩)], 3⟩
      (by decide) 0 1 2 defaultDirectedName defaultBidirectedName
      defaultUndirectedName
      ⟨[(0, (⟨{1, 2}, {(1, 2)}⟩ : NxGraph)), (1, ⟨∅, ∅⟩),
        (2, ⟨∅, ∅⟩), (3, ⟨{1, 2}, {(1, 2)}⟩), (4, ⟨∅, ∅⟩), (5, ⟨∅, ∅⟩)], 6⟩
      ⟨[(defaultDirectedName, 3), (defaultBidirectedName, 4),
        (defaultUndirectedName, 5)], defaultDirectedName,
        defaultBidirectedName, defaultUndirectedName⟩
      (by decide) 0 (Or.inl rfl) ⟨{1, 2, 7}, {(1, 2), (2, 7)}⟩)
